import Mathlib

/-!
Verification development for the finance dashboard (`app.py`).

The analytic core of the application is shallowly embedded here:

* prices are exact rationals (`ℚ`); the only place where IEEE-754 special
  values matter is the RSI division `avg_gain / avg_loss`, which is modelled
  by the explicit float-value type `FV` (finite rational, `+inf`, `-inf`,
  `NaN`) with IEEE division/addition rules for the cases that occur;
* a polars `Series` is a `List`; a nullable column is a `List (Option _)`;
  `DataFrame.drop_nulls` drops a row when a nullable field is `none`
  (IEEE `NaN` is a value, not a null, exactly as in polars);
* `st.cache_data` is modelled by `cachedCall`, an explicit cache-state
  transformer that reports whether the wrapped function was invoked;
* the GitHub contents API is modelled by `RepoState` with the conditional
  `update_file` (sha must match, otherwise the call fails), `create_file`
  and `get_contents`.
-/

namespace FinanceDashboard

/-- IEEE-style float value: a finite rational, an infinity, or NaN.
Rounding is irrelevant to the claims being checked, so finite values are
exact rationals. -/
inductive FV where
  | nan : FV
  | pinf : FV
  | ninf : FV
  | fin : ℚ → FV
deriving DecidableEq

/-- IEEE division of two finite floats `g / l` (polars `avg_gain / avg_loss`):
`x/0` is `±inf` for `x ≠ 0` and `0/0` is NaN. -/
def fdiv (g l : ℚ) : FV :=
  if l = 0 then (if g = 0 then FV.nan else if 0 < g then FV.pinf else FV.ninf)
  else FV.fin (g / l)

/-- `q + v` for a finite literal `q` (the `1.0 + rs` step). -/
def FV.addQ (q : ℚ) : FV → FV
  | FV.nan => FV.nan
  | FV.pinf => FV.pinf
  | FV.ninf => FV.ninf
  | FV.fin x => FV.fin (q + x)

/-- `q / v` for a finite literal `q` (the `100.0 / (1.0 + rs)` step):
`q / ±inf = 0`, `q / 0` is NaN when `q = 0` and `±inf` otherwise. -/
def FV.divQ (q : ℚ) : FV → FV
  | FV.nan => FV.nan
  | FV.pinf => FV.fin 0
  | FV.ninf => FV.fin 0
  | FV.fin x =>
      if x = 0 then (if q = 0 then FV.nan else if 0 < q then FV.pinf else FV.ninf)
      else FV.fin (q / x)

/-- `q - v` for a finite literal `q` (the `100.0 - ...` step). -/
def FV.subQ (q : ℚ) : FV → FV
  | FV.nan => FV.nan
  | FV.pinf => FV.ninf
  | FV.ninf => FV.pinf
  | FV.fin x => FV.fin (q - x)

/-- `rsi = 100.0 - (100.0 / (1.0 + rs))` (app.py line 91). -/
def rsiOf (rs : FV) : FV := FV.subQ 100 (FV.divQ 100 (FV.addQ 1 rs))

/-- `Series.diff()`: null at index 0, `x[i] - x[i-1]` afterwards. -/
def seriesDiff {α : Type} [Sub α] : List α → List (Option α)
  | [] => []
  | x :: xs => none :: List.zipWith (fun prev cur => some (cur - prev)) (x :: xs) xs

/-- `delta.clip(lower_bound=0).fill_null(0)` applied elementwise (gain). -/
def gainOf (d : Option ℚ) : ℚ :=
  match d with
  | none => 0
  | some x => max x 0

/-- `(-delta.clip(upper_bound=0)).fill_null(0)` applied elementwise (loss). -/
def lossOf (d : Option ℚ) : ℚ :=
  match d with
  | none => 0
  | some x => max (-x) 0

/-- Tail of the recursion of `ewm_mean(adjust=False)`:
`y_i = (1 - a) * y_{i-1} + a * x_i`. -/
def ewmGo (a acc : ℚ) : List ℚ → List ℚ
  | [] => []
  | x :: xs =>
      let y := (1 - a) * acc + a * x
      y :: ewmGo a y xs

/-- `Series.ewm_mean(span=s, adjust=False)` on a null-free series:
`y_0 = x_0`, then the exponential recursion. -/
def ewmMean (a : ℚ) : List ℚ → List ℚ
  | [] => []
  | x :: xs => x :: ewmGo a x xs

/-- `alpha = 2 / (span + 1)`, polars' smoothing factor for `span=s`. -/
def ewmAlpha (span : ℚ) : ℚ := 2 / (span + 1)

/-- `Series.rolling_mean(window_size=w)` (default `min_periods = w`):
null for the first `w - 1` indices, then the trailing-window average. -/
def rollingMean (w : ℕ) (xs : List ℚ) : List (Option ℚ) :=
  (List.range xs.length).map (fun i =>
    if w ≤ i + 1 then some ((((xs.take (i + 1)).drop (i + 1 - w)).sum) / (w : ℚ)) else none)

/-- `Series.max()` : null on an empty series, otherwise the maximum. -/
def seriesMax : List ℚ → Option ℚ
  | [] => none
  | x :: xs => some (xs.foldl max x)

/-- `Series.min()` : null on an empty series, otherwise the minimum. -/
def seriesMin : List ℚ → Option ℚ
  | [] => none
  | x :: xs => some (xs.foldl min x)

/-- One OHLCV bar of the fetched history (`Date` is an abstract day index;
`Open`/`Volume` are carried but unused by the pipeline). -/
structure Bar where
  date : ℕ
  opn : ℚ
  high : ℚ
  low : ℚ
  close : ℚ
  volume : ℚ
deriving DecidableEq

/-- A row of the frame after `with_columns([MA50, MA200, RSI])`:
the two rolling means are nullable, the RSI column produced by
`ewm_mean(adjust=False)` over the null-free gain/loss series has a (possibly
NaN) float in every row. -/
structure Row where
  date : ℕ
  opn : ℚ
  high : ℚ
  low : ℚ
  close : ℚ
  volume : ℚ
  ma50 : Option ℚ
  ma200 : Option ℚ
  rsi : FV
deriving DecidableEq

/-- The RSI column of app.py lines 85-91 as a function of the close column. -/
def rsiColumn (closes : List ℚ) : List FV :=
  let delta := seriesDiff closes
  let gain := delta.map gainOf
  let loss := delta.map lossOf
  let avg_gain := ewmMean (ewmAlpha 14) gain
  let avg_loss := ewmMean (ewmAlpha 14) loss
  (List.zipWith fdiv avg_gain avg_loss).map rsiOf

/-- app.py lines 84-95: the history frame extended with MA50, MA200 and RSI. -/
def addIndicators (bars : List Bar) : List Row :=
  let closes := bars.map (fun b => b.close)
  List.zipWith
    (fun b t =>
      { date := b.date, opn := b.opn, high := b.high, low := b.low,
        close := b.close, volume := b.volume,
        ma50 := t.1, ma200 := t.2.1, rsi := t.2.2 })
    bars
    (List.zip (rollingMean 50 closes) (List.zip (rollingMean 200 closes) (rsiColumn closes)))

/-- `DataFrame.drop_nulls()` (line 96): a row is kept iff no nullable field
is null.  The RSI column is never null (NaN is not a null). -/
def dropNullRows (rows : List Row) : List Row :=
  rows.filter (fun r => r.ma50.isSome && r.ma200.isSome)

/-- `DataFrame.tail(n)`: the last `n` rows. -/
def tailN (n : ℕ) (l : List Row) : List Row := l.drop (l.length - n)

/-- `view_data` (line 97): display window of the most recent 252 derived rows. -/
def process_history (bars : List Bar) : List Row :=
  tailN 252 (dropNullRows (addIndicators bars))

/-- Line 98: `view_data.filter(col High == view_data[High].max())`.
Comparison with a null maximum (empty window) yields a null mask, so the
filter returns no rows. -/
def max_point (view : List Row) : List Row :=
  match seriesMax (view.map (fun r => r.high)) with
  | none => []
  | some m => view.filter (fun r => r.high = m)

/-- Line 99: `view_data.filter(col Low == view_data[Low].min())`. -/
def min_point (view : List Row) : List Row :=
  match seriesMin (view.map (fun r => r.low)) with
  | none => []
  | some m => view.filter (fun r => r.low = m)

/-- Line 100: `pl.when(col MA50 > col MA200).then(1).otherwise(-1)` on the
display window, whose MA columns are non-null after `drop_nulls`. -/
def crossSignal (r : Row) : ℤ :=
  if r.ma50.getD 0 > r.ma200.getD 0 then 1 else -1

/-- Line 101, first half: `view_data.with_columns(cross_signal.diff().alias("cross"))` —
each row paired with its (nullable) signal difference. -/
def with_cross (view : List Row) : List (Row × Option ℤ) :=
  view.zip (seriesDiff (view.map crossSignal))

/-- Line 101, second half: `.filter(pl.col("cross") != 0)`.  A null
difference gives a null mask entry, which the filter drops. -/
def cross_events (view : List Row) : List (Row × Option ℤ) :=
  (with_cross view).filter (fun rc =>
    match rc.2 with
    | none => false
    | some d => d ≠ 0)

/-- `Series.drop_nulls()` on an annual financial series
(most-recent-first, as produced by `financials.transpose()`). -/
def drop_nulls_q (series : List (Option ℚ)) : List ℚ :=
  series.filterMap id

/-- Lines 105-112 for a single financial column: the `(start, end, periods)`
selection of the CAGR computation.  `start_val` is `.last()` (oldest),
`end_val` is `.first()` (most recent); the Python guard
`if start_val and end_val and start_val > 0` also rejects a zero end value
(float `0.0` is falsy).  Only the selection is modelled; the final
`((end/start) ** (1/periods)) - 1` and the `%`-formatting are characterised
in the theorems. -/
def cagr_select (series : List (Option ℚ)) : Option (ℚ × ℚ × ℕ) :=
  let vals := drop_nulls_q series
  if 1 < vals.length then
    match vals.getLast?, vals.head? with
    | some start_val, some end_val =>
        if start_val ≠ 0 ∧ end_val ≠ 0 ∧ 0 < start_val then
          let num_years := vals.length - 1
          if 0 < num_years then some (start_val, end_val, num_years) else none
        else none
    | _, _ => none
  else none

/-- Line 104: the two financial columns the CAGR loop inspects. -/
def cagrTargets : List String := ["Total Revenue", "Net Income"]

/-- Lines 103-112: the `cagr` dictionary — one entry per target column that
is present in the financials frame and passes `cagr_select`. -/
def cagr_map (financials : List (String × List (Option ℚ))) :
    List (String × (ℚ × ℚ × ℕ)) :=
  cagrTargets.filterMap (fun name =>
    match financials.lookup name with
    | some series => (cagr_select series).map (fun t => (name, t))
    | none => none)

/-- The payload returned by `fetch_full_data` (the fields `info` and
`recommendations` are opaque to the analytics pipeline and omitted). -/
structure FullData where
  history : List Bar
  financials : List (String × List (Option ℚ))
deriving DecidableEq

/-- The record returned by `process_data` (line 113). -/
structure Processed where
  history : List Row
  maxPoint : List Row
  minPoint : List Row
  crossEvents : List (Row × Option ℤ)
  cagr : List (String × (ℚ × ℚ × ℕ))
deriving DecidableEq

/-- app.py lines 83-113: the whole analytics pipeline. -/
def process_data (full : FullData) : Processed :=
  let view := process_history full.history
  { history := view
    maxPoint := max_point view
    minPoint := min_point view
    crossEvents := cross_events view
    cagr := cagr_map full.financials }

/-! ### Cache layer (`@st.cache_data(ttl=...)`) -/

/-- One memoized entry of `st.cache_data` for a fixed argument tuple. -/
structure CacheEntry (V : Type) where
  value : V
  computed_at : ℕ
deriving DecidableEq

/-- An entry is fresh while `now < computed_at + ttl`. -/
def cacheFresh {V : Type} (ttl now : ℕ) (entry : Option (CacheEntry V)) : Bool :=
  match entry with
  | none => false
  | some e => now < e.computed_at + ttl

/-- One call through `st.cache_data`: serve a fresh entry without invoking
the wrapped function; otherwise invoke it — a returned value is stored with
`computed_at = now`, a raised exception propagates and stores nothing.
The third component reports whether the wrapped function was invoked. -/
def cachedCall {V E : Type} (ttl now : ℕ) (entry : Option (CacheEntry V))
    (fn : Unit → Except E V) : Except E V × Option (CacheEntry V) × Bool :=
  match entry with
  | some e =>
      if now < e.computed_at + ttl then (Except.ok e.value, entry, false)
      else
        match fn () with
        | Except.ok v => (Except.ok v, some ⟨v, now⟩, true)
        | Except.error err => (Except.error err, entry, true)
  | none =>
      match fn () with
      | Except.ok v => (Except.ok v, some ⟨v, now⟩, true)
      | Except.error err => (Except.error err, entry, true)

/-- app.py lines 69-81, body of `fetch_full_data`: the yfinance calls are an
oracle that either fails or yields the payload; every exception is caught
and converted to `None`, and an empty history also yields `None`.  The
function itself therefore never raises. -/
def fetch_full_data (oracle : Except String FullData) : Option FullData :=
  match oracle with
  | Except.error _ => none
  | Except.ok d => if d.history.isEmpty then none else some d

/-! ### Finviz scraper (`scrape_finviz_data`, lines 115-128) -/

/-- A Python-level error escaping `scrape_finviz_data`. -/
inductive PyError where
  | nameError : PyError
deriving DecidableEq

/-- Line 123: pair up the `td.snapshot-td2` cells
(`{cells[i]: cells[i+1] for i in range(0, len, 2)}`); an odd cell count
raises `IndexError` on `cells[i+1]`. -/
def buildDataMap : List String → Except String (List (String × String))
  | [] => Except.ok []
  | [_] => Except.error "IndexError"
  | k :: v :: rest => (buildDataMap rest).map (fun m => (k, v) :: m)

/-- Line 124: `metrics_to_get`, bound inside the `try` block only after the
network request and the cell pairing have succeeded. -/
def metricsToGet : List String := ["P/E", "ROE", "PEG", "EV/EBITDA", "Target Price"]

/-- app.py lines 115-128, body of `scrape_finviz_data`.  The argument is the
outcome of `session.get` + `r.html.find` (the snapshot cells, or a raised
exception).  If anything in the `try` block fails before line 124 binds
`metrics_to_get`, the `except` handler at line 128 references the unbound
local `metrics_to_get` and itself raises `NameError`, which escapes the
function. -/
def scrape_finviz_data (fetched : Except String (List String)) :
    Except PyError (List (String × String)) :=
  match (do
      let cells ← fetched
      buildDataMap cells : Except String (List (String × String))) with
  | Except.ok data_map =>
      Except.ok (metricsToGet.map (fun name => (name, ((data_map.lookup name).getD "N/A"))))
  | Except.error _ => Except.error PyError.nameError

/-! ### Watchlist store (GitHub contents API, lines 43-66) -/

/-- An error raised by a PyGithub call in the model. -/
inductive GhError where
  | unknownObject : GhError
  | conflict : GhError
  | alreadyExists : GhError
deriving DecidableEq

/-- The remote repository state at `FAVORITES_FILE_PATH`: the document's
content and sha when present, and a counter producing fresh shas. -/
structure RepoState where
  doc : Option (List String × ℕ)
  nextSha : ℕ
deriving DecidableEq

/-- `repo.get_contents(path)`: the content and sha, or `UnknownObjectException`. -/
def get_contents (s : RepoState) : Except GhError (List String × ℕ) :=
  match s.doc with
  | none => Except.error GhError.unknownObject
  | some (c, sha) => Except.ok (c, sha)

/-- `repo.update_file(path, msg, content, sha)`: the conditional update —
succeeds and assigns a fresh sha iff the supplied sha matches the current
one, otherwise the API call raises (HTTP 409 conflict). -/
def update_file (s : RepoState) (content : List String) (sha : ℕ) :
    Except GhError RepoState :=
  match s.doc with
  | none => Except.error GhError.unknownObject
  | some (_, cur) =>
      if sha = cur then
        Except.ok { doc := some (content, s.nextSha), nextSha := s.nextSha + 1 }
      else Except.error GhError.conflict

/-- `repo.create_file(path, msg, content)`: creates the document when absent. -/
def create_file (s : RepoState) (content : List String) : Except GhError RepoState :=
  match s.doc with
  | some _ => Except.error GhError.alreadyExists
  | none => Except.ok { doc := some (content, s.nextSha), nextSha := s.nextSha + 1 }

/-- Lexicographic comparison of character lists by Unicode code point —
the order Python's `<` uses on strings. -/
def charListLt : List Char → List Char → Bool
  | [], [] => false
  | [], _ :: _ => true
  | _ :: _, [] => false
  | a :: as, b :: bs => if a < b then true else if b < a then false else charListLt as bs

/-- Python's `a < b` on strings. -/
def pyStrLt (a b : String) : Bool := charListLt a.data b.data

/-- The total order used by Python's `sorted` on the distinct symbols
(`a ≤ b` as the negation of `b < a`). -/
def strLeP (a b : String) : Prop := ¬ pyStrLt b a = true

instance : DecidableRel strLeP := fun _ _ => instDecidableNot

/-- Line 56: `sorted(list(set(favorites_list)))` — exact-equality
deduplication followed by an ascending sort.  No case normalization is
performed anywhere on the write path. -/
def normalize_favorites (l : List String) : List String :=
  List.insertionSort strLeP l.dedup

/-- app.py lines 54-66, `write_favorites_to_github`: normalize, fetch the
CURRENT sha with `get_contents`, update with that sha (or create the file if
absent).  Any error reaching the outer `except` yields `False` with the
remote state unchanged. -/
def write_favorites_to_github (s : RepoState) (favorites_list : List String) :
    Bool × RepoState :=
  let contents := normalize_favorites favorites_list
  match get_contents s with
  | Except.ok (_, sha) =>
      match update_file s contents sha with
      | Except.ok s2 => (true, s2)
      | Except.error _ => (false, s)
  | Except.error GhError.unknownObject =>
      match create_file s contents with
      | Except.ok s2 => (true, s2)
      | Except.error _ => (false, s)
  | Except.error _ => (false, s)

/-- app.py lines 43-52, `read_favorites_from_github`: the current document
content; a missing document yields the default watchlist; any other failure
yields `[]`.  Note that no revision token is returned to the caller. -/
def read_favorites_from_github (s : RepoState) : List String :=
  match get_contents s with
  | Except.ok (c, _) => c
  | Except.error GhError.unknownObject => ["MSFT", "AAPL", "GOOG", "NVDA"]
  | Except.error _ => []

/-! ### Helper lemmas -/

theorem mem_zipWith {α β γ : Type} {f : α → β → γ} :
    ∀ {l1 : List α} {l2 : List β} {x : γ}, x ∈ List.zipWith f l1 l2 →
      ∃ a b, a ∈ l1 ∧ b ∈ l2 ∧ x = f a b
  | a :: as, b :: bs, x, hx => by
      rcases List.mem_cons.1 hx with h | h
      · exact ⟨a, b, List.mem_cons_self a as, List.mem_cons_self b bs, h⟩
      · rcases mem_zipWith h with ⟨a2, b2, ha, hb, hx2⟩
        exact ⟨a2, b2, List.mem_cons_of_mem _ ha, List.mem_cons_of_mem _ hb, hx2⟩

theorem gainOf_nonneg (d : Option ℚ) : 0 ≤ gainOf d := by
  cases d <;> simp [gainOf]

theorem lossOf_nonneg (d : Option ℚ) : 0 ≤ lossOf d := by
  cases d <;> simp [lossOf]

theorem ewmGo_nonneg {a : ℚ} (h0 : 0 ≤ a) (h1 : a ≤ 1) :
    ∀ {xs : List ℚ} {acc : ℚ}, 0 ≤ acc → (∀ x ∈ xs, 0 ≤ x) →
      ∀ y ∈ ewmGo a acc xs, 0 ≤ y := by
  intro xs
  induction xs with
  | nil => intro acc _ _ y hy; simp [ewmGo] at hy
  | cons x xs ih =>
      intro acc hacc hxs y hy
      have hx : 0 ≤ x := hxs x (List.mem_cons_self x xs)
      have hstep : 0 ≤ (1 - a) * acc + a * x := by
        have hm1 := mul_nonneg (by linarith : (0:ℚ) ≤ 1 - a) hacc
        have hm2 := mul_nonneg h0 hx
        linarith
      simp only [ewmGo] at hy
      rcases List.mem_cons.1 hy with h | h
      · exact h ▸ hstep
      · exact ih hstep (fun z hz => hxs z (List.mem_cons_of_mem _ hz)) y h

theorem ewmMean_nonneg {a : ℚ} (h0 : 0 ≤ a) (h1 : a ≤ 1) :
    ∀ {xs : List ℚ}, (∀ x ∈ xs, 0 ≤ x) → ∀ y ∈ ewmMean a xs, 0 ≤ y := by
  intro xs hxs y hy
  cases xs with
  | nil => simp [ewmMean] at hy
  | cons x xs =>
      simp only [ewmMean] at hy
      rcases List.mem_cons.1 hy with h | h
      · exact h ▸ hxs x (List.mem_cons_self x xs)
      · exact ewmGo_nonneg h0 h1 (hxs x (List.mem_cons_self x xs))
          (fun z hz => hxs z (List.mem_cons_of_mem _ hz)) y h

theorem rsiOf_fdiv_bounds {g l v : ℚ} (hg : 0 ≤ g) (hl : 0 ≤ l)
    (h : rsiOf (fdiv g l) = FV.fin v) : 0 ≤ v ∧ v ≤ 100 := by
  by_cases hl0 : l = 0
  · by_cases hg0 : g = 0
    · simp [fdiv, hl0, hg0, rsiOf, FV.addQ, FV.divQ, FV.subQ] at h
    · have hgpos : 0 < g := lt_of_le_of_ne hg (Ne.symm hg0)
      simp [fdiv, hl0, hg0, hgpos, rsiOf, FV.addQ, FV.divQ, FV.subQ] at h
      constructor <;> simp [← h]
  · have hlpos : 0 < l := lt_of_le_of_ne hl (Ne.symm hl0)
    have hrs : 0 ≤ g / l := div_nonneg hg hl
    have h1rs : (0:ℚ) < 1 + g / l := by linarith
    have hne : (1:ℚ) + g / l ≠ 0 := ne_of_gt h1rs
    simp [fdiv, hl0, rsiOf, FV.addQ, FV.divQ, FV.subQ, hne] at h
    have hdivle : 100 / (1 + g / l) ≤ 100 := by
      apply div_le_self (by norm_num) (by linarith)
    have hdivpos : 0 < 100 / (1 + g / l) := by positivity
    constructor <;> [linarith [h]; linarith [h]]

theorem rsiColumn_mem_bounds {closes : List ℚ} {v : ℚ}
    (h : FV.fin v ∈ rsiColumn closes) : 0 ≤ v ∧ v ≤ 100 := by
  simp only [rsiColumn, List.mem_map] at h
  obtain ⟨rs, hrs, heq⟩ := h
  rcases mem_zipWith hrs with ⟨g, l, hgmem, hlmem, rfl⟩
  have hg : 0 ≤ g :=
    ewmMean_nonneg (by norm_num [ewmAlpha]) (by norm_num [ewmAlpha])
      (by intro x hx; rcases List.mem_map.1 hx with ⟨d, _, rfl⟩; exact gainOf_nonneg d)
      g hgmem
  have hl : 0 ≤ l :=
    ewmMean_nonneg (by norm_num [ewmAlpha]) (by norm_num [ewmAlpha])
      (by intro x hx; rcases List.mem_map.1 hx with ⟨d, _, rfl⟩; exact lossOf_nonneg d)
      l hlmem
  exact rsiOf_fdiv_bounds hg hl heq

theorem addIndicators_rsi_mem {bars : List Bar} {row : Row}
    (h : row ∈ addIndicators bars) :
    row.rsi ∈ rsiColumn (bars.map (fun b => b.close)) := by
  simp only [addIndicators] at h
  rcases mem_zipWith h with ⟨b, t, _, ht, rfl⟩
  obtain ⟨m50, m200, rs⟩ := t
  have h1 := List.of_mem_zip ht
  have h2 := List.of_mem_zip h1.2
  exact h2.2

/-! ### Concrete scenario data -/

/-- A bar whose four prices all equal `c` (constant-price histories). -/
def constBar (c : ℚ) (d : ℕ) : Bar :=
  { date := d, opn := c, high := c, low := c, close := c, volume := 0 }

/-! ### C3 — RSI range and degenerate cases -/

/-- C3 (amended): every RSI value the pipeline produces that is a finite
float lies in [0, 100]; the all-gains history yields 100 (no divide error)
and the all-losses history yields 0 from row 1 on.  The flat-price case is
settled (as NaN, not 50) by the separate counterexample theorem. -/
theorem rsi_finite_values_bounded (bars : List Bar) (row : Row) (v : ℚ)
    (hmem : row ∈ addIndicators bars) (hfin : row.rsi = FV.fin v) :
    (0 ≤ v ∧ v ≤ 100) ∧
      rsiColumn [100, 200, 300] = [FV.nan, FV.fin 100, FV.fin 100] ∧
      rsiColumn [300, 200, 100] = [FV.nan, FV.fin 0, FV.fin 0] := by
  refine ⟨rsiColumn_mem_bounds (hfin ▸ addIndicators_rsi_mem hmem), ?_, ?_⟩
  · norm_num [rsiColumn, seriesDiff, ewmMean, ewmGo, ewmAlpha,
      gainOf, lossOf, fdiv, rsiOf, FV.addQ, FV.divQ, FV.subQ]
  · norm_num [rsiColumn, seriesDiff, ewmMean, ewmGo, ewmAlpha,
      gainOf, lossOf, fdiv, rsiOf, FV.addQ, FV.divQ, FV.subQ]

/-- C3 (witness): the bounds theorem applied to a concrete two-bar rising
history whose second row carries RSI = 100. -/
theorem rsi_finite_values_bounded_witness :
    (0 ≤ (100 : ℚ) ∧ (100 : ℚ) ≤ 100) ∧
      rsiColumn [100, 200, 300] = [FV.nan, FV.fin 100, FV.fin 100] ∧
      rsiColumn [300, 200, 100] = [FV.nan, FV.fin 0, FV.fin 0] :=
  rsi_finite_values_bounded [constBar 100 0, constBar 200 1]
    { date := 1, opn := 200, high := 200, low := 200, close := 200, volume := 0,
      ma50 := none, ma200 := none, rsi := FV.fin 100 }
    100
    (by norm_num [addIndicators, rsiColumn, seriesDiff, ewmMean, ewmGo, ewmAlpha,
          gainOf, lossOf, fdiv, rsiOf, FV.addQ, FV.divQ, FV.subQ, rollingMean, constBar,
          List.range_succ])
    rfl

/-- C3 (counterexample): on a flat-price history both smoothed averages are
zero, the relative strength is the float `0/0`, and the RSI column is NaN in
every row — not 50 and not an absent/null value, contradicting the claim
that the flat case never yields NaN. -/
theorem rsi_flat_price_yields_nan :
    (addIndicators [constBar 100 0, constBar 100 1, constBar 100 2]).map (fun r => r.rsi)
        = [FV.nan, FV.nan, FV.nan] ∧
      FV.nan ≠ FV.fin 50 := by
  constructor
  · norm_num [addIndicators, rsiColumn, seriesDiff, ewmMean, ewmGo, ewmAlpha,
      gainOf, lossOf, fdiv, rsiOf, FV.addQ, FV.divQ, FV.subQ, rollingMean, constBar,
      List.range_succ]
  · intro h; cases h

/-! ### Constant-price histories in closed form -/

/-- Row `i` of the derived frame of a constant-price history. -/
def flatRow (c : ℚ) (d : ℕ) (i : ℕ) : Row :=
  { date := d, opn := c, high := c, low := c, close := c, volume := 0,
    ma50 := if 50 ≤ i + 1 then some c else none,
    ma200 := if 200 ≤ i + 1 then some c else none,
    rsi := FV.nan }

/-- The fully-derived row of a constant-price history (both windows filled). -/
def fullFlatRow (c : ℚ) (d : ℕ) : Row :=
  { date := d, opn := c, high := c, low := c, close := c, volume := 0,
    ma50 := some c, ma200 := some c, rsi := FV.nan }

theorem zipWith_replicate_both {α β γ : Type} (f : α → β → γ) (a : α) (b : β) :
    ∀ m n, List.zipWith f (List.replicate m a) (List.replicate n b)
      = List.replicate (min m n) (f a b)
  | 0, _ => by simp
  | _ + 1, 0 => by simp
  | m + 1, n + 1 => by
      simp [List.replicate_succ, zipWith_replicate_both f a b m n, Nat.succ_min_succ]

theorem seriesDiff_replicate {α : Type} [Sub α] (n : ℕ) (c : α) :
    seriesDiff (List.replicate (n + 1) c) = none :: List.replicate n (some (c - c)) := by
  rw [List.replicate_succ]
  show none :: List.zipWith _ (c :: List.replicate n c) (List.replicate n c) = _
  rw [← List.replicate_succ, zipWith_replicate_both]
  simp [Nat.min_eq_right (Nat.le_succ n)]

theorem ewmGo_zeros (a : ℚ) : ∀ n, ewmGo a 0 (List.replicate n 0) = List.replicate n 0
  | 0 => by simp [ewmGo]
  | n + 1 => by
      have hstep : (1 - a) * 0 + a * 0 = 0 := by ring
      simp only [List.replicate_succ, ewmGo, hstep]
      rw [ewmGo_zeros a n]

theorem ewmMean_zeros (a : ℚ) (n : ℕ) :
    ewmMean a (List.replicate (n + 1) 0) = List.replicate (n + 1) 0 := by
  rw [List.replicate_succ]
  show (0 : ℚ) :: ewmGo a 0 (List.replicate n 0) = _
  rw [ewmGo_zeros a n]

theorem rsiColumn_replicate (n : ℕ) (c : ℚ) :
    rsiColumn (List.replicate (n + 1) c) = List.replicate (n + 1) FV.nan := by
  have hgain : (none :: List.replicate n (some (c - c))).map gainOf
      = List.replicate (n + 1) (0 : ℚ) := by
    rw [List.map_cons, List.map_replicate, List.replicate_succ]
    simp [gainOf, sub_self]
  have hloss : (none :: List.replicate n (some (c - c))).map lossOf
      = List.replicate (n + 1) (0 : ℚ) := by
    rw [List.map_cons, List.map_replicate, List.replicate_succ]
    simp [lossOf, sub_self]
  have hnan : rsiOf (fdiv 0 0) = FV.nan := by
    simp [fdiv, rsiOf, FV.addQ, FV.divQ, FV.subQ]
  show (List.zipWith fdiv
      (ewmMean (ewmAlpha 14) ((seriesDiff (List.replicate (n + 1) c)).map gainOf))
      (ewmMean (ewmAlpha 14) ((seriesDiff (List.replicate (n + 1) c)).map lossOf))).map rsiOf
    = _
  rw [seriesDiff_replicate, hgain, hloss, ewmMean_zeros, zipWith_replicate_both,
    Nat.min_self, List.map_replicate, hnan]

theorem replicate_eq_map_range {α : Type} (n : ℕ) (x : α) :
    List.replicate n x = (List.range n).map (fun _ => x) := by
  rw [List.map_const', List.length_range]

theorem zipWith_map_same {α β γ δ : Type} (k : β → γ → δ) (f : α → β) (g : α → γ) :
    ∀ l : List α, List.zipWith k (l.map f) (l.map g) = l.map (fun x => k (f x) (g x))
  | [] => by simp
  | x :: xs => by simp [zipWith_map_same k f g xs]

theorem rollingMean_replicate (w : ℕ) (hw : w ≠ 0) (n : ℕ) (c : ℚ) :
    rollingMean w (List.replicate n c)
      = (List.range n).map (fun i => if w ≤ i + 1 then some c else none) := by
  unfold rollingMean
  rw [List.length_replicate]
  apply List.map_congr_left
  intro i hi
  have hin : i < n := List.mem_range.1 hi
  by_cases hcond : w ≤ i + 1
  · rw [if_pos hcond, if_pos hcond]
    congr 1
    rw [List.take_replicate, Nat.min_eq_left (by omega), List.drop_replicate]
    have hlen : i + 1 - (i + 1 - w) = w := by omega
    rw [hlen, List.sum_replicate, nsmul_eq_mul]
    exact mul_div_cancel_left₀ c (Nat.cast_ne_zero.2 hw)
  · rw [if_neg hcond, if_neg hcond]

theorem addIndicators_replicate (c : ℚ) (d : ℕ) (n : ℕ) :
    addIndicators (List.replicate (n + 1) (constBar c d))
      = (List.range (n + 1)).map (flatRow c d) := by
  unfold addIndicators
  rw [List.map_replicate]
  show List.zipWith _ (List.replicate (n + 1) (constBar c d))
      ((rollingMean 50 (List.replicate (n + 1) c)).zip
        ((rollingMean 200 (List.replicate (n + 1) c)).zip
          (rsiColumn (List.replicate (n + 1) c)))) = _
  rw [rollingMean_replicate 50 (by norm_num) _ c,
    rollingMean_replicate 200 (by norm_num) _ c,
    rsiColumn_replicate, replicate_eq_map_range (n + 1) FV.nan,
    List.zip_map', List.zip_map',
    replicate_eq_map_range (n + 1) (constBar c d), zipWith_map_same]
  apply List.map_congr_left
  intro i _
  simp [constBar, flatRow]

theorem dropNullRows_map_flatRow (c : ℚ) (d : ℕ) (n : ℕ) :
    dropNullRows ((List.range n).map (flatRow c d))
      = ((List.range n).filter
          (fun i => decide (50 ≤ i + 1) && decide (200 ≤ i + 1))).map (flatRow c d) := by
  unfold dropNullRows
  rw [List.filter_map]
  congr 1
  apply List.filter_congr
  intro i _
  by_cases h50 : 50 ≤ i + 1 <;> by_cases h200 : 200 ≤ i + 1 <;>
    simp [flatRow, h50, h200]

theorem filter_range_300 :
    (List.range 300).filter (fun i => decide (50 ≤ i + 1) && decide (200 ≤ i + 1))
      = List.range' 199 101 := by decide

theorem map_flatRow_range' (c : ℚ) (d : ℕ) :
    (List.range' 199 101).map (flatRow c d) = List.replicate 101 (fullFlatRow c d) := by
  apply List.eq_replicate_of_mem
  intro r hr
  rcases List.mem_map.1 hr with ⟨i, hi, rfl⟩
  have hge : 199 ≤ i := (List.mem_range'_1.1 hi).1
  simp [flatRow, fullFlatRow, (by omega : 50 ≤ i + 1), (by omega : 200 ≤ i + 1)]

theorem process_history_flat300 (c : ℚ) (d : ℕ) :
    process_history (List.replicate 300 (constBar c d))
      = List.replicate 101 (fullFlatRow c d) := by
  have h : (299 : ℕ) + 1 = 300 := rfl
  unfold process_history
  rw [← h, addIndicators_replicate, h, dropNullRows_map_flatRow, filter_range_300,
    map_flatRow_range']
  have hlen : (List.replicate 101 (fullFlatRow c d)).length = 101 := List.length_replicate _ _
  simp [tailN, hlen]

/-! ### C4 — derived-field nullability by window -/

theorem rollingMean_get? (w : ℕ) (xs : List ℚ) (i : ℕ) (h : i < xs.length) :
    (rollingMean w xs).get? i =
      some (if w ≤ i + 1 then some ((((xs.take (i + 1)).drop (i + 1 - w)).sum) / (w : ℚ))
            else none) := by
  rw [List.get?_eq_getElem?]
  simp only [rollingMean, List.getElem?_map]
  rw [List.getElem?_range h]
  rfl

theorem addIndicators_get?_ma (bars : List Bar) (i : ℕ) (row : Row)
    (h : (addIndicators bars).get? i = some row) :
    (row.ma50 = none ↔ i + 1 < 50) ∧ (row.ma200 = none ↔ i + 1 < 200) := by
  simp only [addIndicators] at h
  rcases (List.get?_zipWith_eq_some _ _ _ _ _).1 h with ⟨b, t, hb, ht, heq⟩
  rcases (List.get?_zip_eq_some _ _ _ _).1 ht with ⟨h50, ht2⟩
  rcases (List.get?_zip_eq_some _ _ _ _).1 ht2 with ⟨h200, _⟩
  have hlen : i < (bars.map (fun b => b.close)).length := by
    have := List.get?_eq_some.1 h50
    simpa [rollingMean] using this.1
  rw [rollingMean_get? 50 _ i hlen] at h50
  rw [rollingMean_get? 200 _ i hlen] at h200
  have hma50 : row.ma50 = t.1 := by rw [← heq]
  have hma200 : row.ma200 = t.2.1 := by rw [← heq]
  constructor
  · rw [hma50, ← Option.some.injEq t.1, ← h50]
    by_cases hw : 50 ≤ i + 1 <;> simp [hw] <;> omega
  · rw [hma200, ← Option.some.injEq t.2.1, ← h200]
    by_cases hw : 200 ≤ i + 1 <;> simp [hw] <;> omega

/-- C4 (amended): the two moving-average fields are null exactly on the
first `w - 1` rows of the full history (w = 50 and 200); every row of the
display window has both fields present (`drop_nulls` removed the others);
but the RSI (window 14) is NOT absent on the first 13 rows — the
exponentially weighted mean assigns it a float value from row 0 on, as the
concrete three-row history shows. -/
theorem derived_fields_nullability (bars : List Bar) (i : ℕ) (row : Row) (row2 : Row)
    (h : (addIndicators bars).get? i = some row)
    (h2 : row2 ∈ process_history bars) :
    ((row.ma50 = none ↔ i + 1 < 50) ∧ (row.ma200 = none ↔ i + 1 < 200)) ∧
      (row2.ma50.isSome ∧ row2.ma200.isSome) ∧
      (addIndicators [constBar 100 0, constBar 200 1, constBar 300 2]).map (fun r => r.rsi)
        = [FV.nan, FV.fin 100, FV.fin 100] := by
  refine ⟨addIndicators_get?_ma bars i row h, ?_, ?_⟩
  · have hmem : row2 ∈ dropNullRows (addIndicators bars) :=
      List.mem_of_mem_drop h2
    have hpred := (List.mem_filter.1 hmem).2
    have hsplit : row2.ma50.isSome = true ∧ row2.ma200.isSome = true :=
      Bool.and_eq_true row2.ma50.isSome row2.ma200.isSome ▸ hpred
    exact hsplit
  · norm_num [addIndicators, rsiColumn, seriesDiff, ewmMean, ewmGo, ewmAlpha,
      gainOf, lossOf, fdiv, rsiOf, FV.addQ, FV.divQ, FV.subQ, rollingMean, constBar,
      List.range_succ]

/-- C4 (witness): the nullability theorem applied to the 300-bar flat
history — row 0 of the full frame has both moving averages null, and the
fully-derived flat row sits in the display window with both present. -/
theorem derived_fields_nullability_witness :
    (((flatRow 100 0 0).ma50 = none ↔ 0 + 1 < 50) ∧
        ((flatRow 100 0 0).ma200 = none ↔ 0 + 1 < 200)) ∧
      ((fullFlatRow 100 0).ma50.isSome ∧ (fullFlatRow 100 0).ma200.isSome) ∧
      (addIndicators [constBar 100 0, constBar 200 1, constBar 300 2]).map (fun r => r.rsi)
        = [FV.nan, FV.fin 100, FV.fin 100] :=
  derived_fields_nullability (List.replicate 300 (constBar 100 0)) 0
    (flatRow 100 0 0) (fullFlatRow 100 0)
    (by rw [(rfl : (300:ℕ) = 299 + 1), addIndicators_replicate]
        simp [List.get?_map, List.get?_range])
    (by rw [process_history_flat300]
        exact List.mem_replicate.2 ⟨by norm_num, rfl⟩)

/-- C4 (counterexample): the claim asserts the RSI (window 14) is undefined
— absent — on the first 13 rows of the full history; but already row 1 of a
three-bar history carries the defined finite value 100, and no row of the
RSI column is ever null in the pipeline's output. -/
theorem rsi_present_before_window_fills :
    ((addIndicators [constBar 100 0, constBar 200 1, constBar 300 2]).get? 1).map
        (fun r => r.rsi) = some (FV.fin 100) ∧ (1 : ℕ) < 13 := by
  constructor
  · norm_num [addIndicators, rsiColumn, seriesDiff, ewmMean, ewmGo, ewmAlpha,
      gainOf, lossOf, fdiv, rsiOf, FV.addQ, FV.divQ, FV.subQ, rollingMean, constBar,
      List.range_succ]
  · norm_num

/-! ### C6 — no CrossEvent at the first row of the window -/

/-- C6: every event the crossover detector emits lies in the tail of the
signal-diffed display window: the first row's signal difference is null, the
`cross != 0` filter drops null entries, so no CrossEvent is ever produced at
the window's first row. -/
theorem cross_events_avoid_first_row (v : Row) (vs : List Row) (x : Row × Option ℤ)
    (hx : x ∈ cross_events (v :: vs)) : x ∈ (with_cross (v :: vs)).tail := by
  have hshape : with_cross (v :: vs)
      = (v, (none : Option ℤ)) ::
          vs.zip (List.zipWith (fun prev cur => some (cur - prev))
            (crossSignal v :: vs.map crossSignal) (vs.map crossSignal)) := rfl
  have hmem := List.mem_of_mem_filter hx
  have hpred := List.of_mem_filter hx
  rw [hshape] at hmem
  rw [hshape, List.tail_cons]
  rcases List.mem_cons.1 hmem with h | h
  · subst h
    simp at hpred
  · exact h

/-- Two display-window rows whose short average crosses above the long one. -/
def crossRowBelow : Row :=
  { date := 0, opn := 10, high := 10, low := 10, close := 10, volume := 0,
    ma50 := some 1, ma200 := some 2, rsi := FV.nan }

/-- See `crossRowBelow`. -/
def crossRowAbove : Row :=
  { date := 1, opn := 10, high := 10, low := 10, close := 10, volume := 0,
    ma50 := some 3, ma200 := some 2, rsi := FV.nan }

/-- C6 (witness): a golden cross at the second row of a two-row window is
emitted and indeed lies in the window's tail. -/
theorem cross_events_avoid_first_row_witness :
    (crossRowAbove, some (2 : ℤ)) ∈ (with_cross [crossRowBelow, crossRowAbove]).tail :=
  cross_events_avoid_first_row crossRowBelow [crossRowAbove] (crossRowAbove, some 2)
    (by norm_num [cross_events, with_cross, crossSignal, seriesDiff,
          crossRowBelow, crossRowAbove])

/-! ### C9 — extrema with ties -/

theorem foldl_max_le_of_mem :
    ∀ (xs : List ℚ) (x y : ℚ), y ∈ x :: xs → y ≤ xs.foldl max x := by
  intro xs
  induction xs with
  | nil =>
      intro x y hy
      rcases List.mem_cons.1 hy with h | h
      · exact h ▸ le_refl x
      · simp at h
  | cons z zs ih =>
      intro x y hy
      have step : ∀ w, w ≤ max x z → w ≤ zs.foldl max (max x z) := fun w hw =>
        le_trans hw (ih (max x z) (max x z) (List.mem_cons_self _ _))
      rcases List.mem_cons.1 hy with h | h
      · exact h ▸ step x (le_max_left x z)
      · rcases List.mem_cons.1 h with h2 | h2
        · exact h2 ▸ step z (le_max_right x z)
        · exact ih (max x z) y (List.mem_cons_of_mem _ h2)

theorem foldl_max_mem : ∀ (xs : List ℚ) (x : ℚ), xs.foldl max x ∈ x :: xs := by
  intro xs
  induction xs with
  | nil => intro x; exact List.mem_cons_self x []
  | cons z zs ih =>
      intro x
      show List.foldl max (max x z) zs ∈ x :: z :: zs
      have h := ih (max x z)
      rcases List.mem_cons.1 h with h2 | h2
      · rcases max_choice x z with hc | hc
        · rw [h2, hc]; exact List.mem_cons_self _ _
        · rw [h2, hc]; exact List.mem_cons_of_mem _ (List.mem_cons_self _ _)
      · exact List.mem_cons_of_mem _ (List.mem_cons_of_mem _ h2)

theorem foldl_min_le_of_mem :
    ∀ (xs : List ℚ) (x y : ℚ), y ∈ x :: xs → xs.foldl min x ≤ y := by
  intro xs
  induction xs with
  | nil =>
      intro x y hy
      rcases List.mem_cons.1 hy with h | h
      · exact h ▸ le_refl x
      · simp at h
  | cons z zs ih =>
      intro x y hy
      have step : ∀ w, min x z ≤ w → zs.foldl min (min x z) ≤ w := fun w hw =>
        le_trans (ih (min x z) (min x z) (List.mem_cons_self _ _)) hw
      rcases List.mem_cons.1 hy with h | h
      · exact h ▸ step x (min_le_left x z)
      · rcases List.mem_cons.1 h with h2 | h2
        · exact h2 ▸ step z (min_le_right x z)
        · exact ih (min x z) y (List.mem_cons_of_mem _ h2)

theorem foldl_min_mem : ∀ (xs : List ℚ) (x : ℚ), xs.foldl min x ∈ x :: xs := by
  intro xs
  induction xs with
  | nil => intro x; exact List.mem_cons_self x []
  | cons z zs ih =>
      intro x
      show List.foldl min (min x z) zs ∈ x :: z :: zs
      have h := ih (min x z)
      rcases List.mem_cons.1 h with h2 | h2
      · rcases min_choice x z with hc | hc
        · rw [h2, hc]; exact List.mem_cons_self _ _
        · rw [h2, hc]; exact List.mem_cons_of_mem _ (List.mem_cons_self _ _)
      · exact List.mem_cons_of_mem _ (List.mem_cons_of_mem _ h2)

/-- C9: on a non-empty display window, the extrema detector returns exactly
the rows attaining the window's maximum high (resp. minimum low) — in
particular every tied row is returned, not just the first. -/
theorem extrema_return_all_ties (view : List Row) (hne : view ≠ []) (r : Row) :
    (r ∈ max_point view ↔ r ∈ view ∧ ∀ s ∈ view, s.high ≤ r.high) ∧
      (r ∈ min_point view ↔ r ∈ view ∧ ∀ s ∈ view, r.low ≤ s.low) := by
  cases view with
  | nil => exact absurd rfl hne
  | cons v vs =>
      have hmax : seriesMax ((v :: vs).map (fun r => r.high))
          = some ((vs.map (fun r => r.high)).foldl max v.high) := rfl
      have hmin : seriesMin ((v :: vs).map (fun r => r.low))
          = some ((vs.map (fun r => r.low)).foldl min v.low) := rfl
      have hhigh_mem : ∀ s, s ∈ v :: vs →
          s.high ∈ v.high :: vs.map (fun r => r.high) := by
        intro s hs
        rcases List.mem_cons.1 hs with h | h
        · exact h ▸ List.mem_cons_self _ _
        · exact List.mem_cons_of_mem _ (List.mem_map_of_mem _ h)
      have hlow_mem : ∀ s, s ∈ v :: vs →
          s.low ∈ v.low :: vs.map (fun r => r.low) := by
        intro s hs
        rcases List.mem_cons.1 hs with h | h
        · exact h ▸ List.mem_cons_self _ _
        · exact List.mem_cons_of_mem _ (List.mem_map_of_mem _ h)
      constructor
      · rw [max_point, hmax]
        rw [List.mem_filter]
        constructor
        · rintro ⟨hrv, hpred⟩
          have hr : r.high = (vs.map (fun r => r.high)).foldl max v.high :=
            of_decide_eq_true hpred
          refine ⟨hrv, fun s hs => ?_⟩
          rw [hr]
          exact foldl_max_le_of_mem _ _ _ (hhigh_mem s hs)
        · rintro ⟨hrv, hmaximal⟩
          refine ⟨hrv, decide_eq_true ?_⟩
          have hm := foldl_max_mem (vs.map (fun r => r.high)) v.high
          rcases List.mem_cons.1 hm with h | h
          · exact le_antisymm
              (foldl_max_le_of_mem _ _ _ (hhigh_mem r hrv))
              (by rw [h]; exact hmaximal v (List.mem_cons_self _ _))
          · rcases List.mem_map.1 h with ⟨s, hsmem, hseq⟩
            exact le_antisymm
              (foldl_max_le_of_mem _ _ _ (hhigh_mem r hrv))
              (by rw [← hseq]; exact hmaximal s (List.mem_cons_of_mem _ hsmem))
      · rw [min_point, hmin]
        rw [List.mem_filter]
        constructor
        · rintro ⟨hrv, hpred⟩
          have hr : r.low = (vs.map (fun r => r.low)).foldl min v.low :=
            of_decide_eq_true hpred
          refine ⟨hrv, fun s hs => ?_⟩
          rw [hr]
          exact foldl_min_le_of_mem _ _ _ (hlow_mem s hs)
        · rintro ⟨hrv, hminimal⟩
          refine ⟨hrv, decide_eq_true ?_⟩
          have hm := foldl_min_mem (vs.map (fun r => r.low)) v.low
          rcases List.mem_cons.1 hm with h | h
          · exact le_antisymm
              (by rw [h]; exact hminimal v (List.mem_cons_self _ _))
              (foldl_min_le_of_mem _ _ _ (hlow_mem r hrv))
          · rcases List.mem_map.1 h with ⟨s, hsmem, hseq⟩
            exact le_antisymm
              (by rw [← hseq]; exact hminimal s (List.mem_cons_of_mem _ hsmem))
              (foldl_min_le_of_mem _ _ _ (hlow_mem r hrv))

/-- A row tying both the maximum high and the minimum low with its twin. -/
def tieRowA : Row :=
  { date := 0, opn := 10, high := 10, low := 5, close := 10, volume := 0,
    ma50 := none, ma200 := none, rsi := FV.nan }

/-- See `tieRowA` — same prices, different date. -/
def tieRowB : Row :=
  { date := 1, opn := 10, high := 10, low := 5, close := 10, volume := 0,
    ma50 := none, ma200 := none, rsi := FV.nan }

/-- C9 (witness): both rows of a two-row window that tie on the maximum
high are returned by the extrema detector. -/
theorem extrema_return_all_ties_witness :
    tieRowA ∈ max_point [tieRowA, tieRowB] ∧ tieRowB ∈ max_point [tieRowA, tieRowB] := by
  constructor
  · exact (extrema_return_all_ties [tieRowA, tieRowB] (List.cons_ne_nil _ _) tieRowA).1.mpr
      ⟨List.mem_cons_self _ _, by intro s hs; fin_cases hs <;> norm_num [tieRowA, tieRowB]⟩
  · exact (extrema_return_all_ties [tieRowA, tieRowB] (List.cons_ne_nil _ _) tieRowB).1.mpr
      ⟨List.mem_cons_of_mem _ (List.mem_cons_self _ _),
       by intro s hs; fin_cases hs <;> norm_num [tieRowA, tieRowB]⟩

/-! ### C7 — growth-rate selection and value -/

/-- C7 (amended): with at least two non-missing values, a positive start
value (the oldest) AND a non-zero end value (the most recent), the
calculator selects (start, end, count−1); it omits the entry when the start
value is not positive, when fewer than two values exist, and — the
amendment — also when the end value is 0 (Python truthiness of the float).
For [150, 140, 50] the selection is (50, 150, 2) and the CAGR
(end/start)^(1/periods) − 1 = √3 − 1 ≈ 73.2%. -/
theorem cagr_selection_spec :
    (∀ (series : List (Option ℚ)) (s e : ℚ),
        (drop_nulls_q series).getLast? = some s →
        (drop_nulls_q series).head? = some e →
        2 ≤ (drop_nulls_q series).length → 0 < s → e ≠ 0 →
        cagr_select series = some (s, e, (drop_nulls_q series).length - 1)) ∧
    (∀ (series : List (Option ℚ)) (s : ℚ),
        (drop_nulls_q series).getLast? = some s → s ≤ 0 →
        cagr_select series = none) ∧
    (∀ series : List (Option ℚ), (drop_nulls_q series).length < 2 →
        cagr_select series = none) ∧
    cagr_select [some 150, some 140, some 50] = some (50, 150, 2) ∧
    (∀ c : ℝ, 0 ≤ 1 + c → (1 + c) ^ (2 : ℕ) = (150 : ℝ) / 50 →
        73 / 100 < c ∧ c < 74 / 100) := by
  refine ⟨?_, ?_, ?_, by decide, ?_⟩
  · intro series s e hs he hlen hspos hene
    simp only [cagr_select, hs, he]
    rw [if_pos (by omega : 1 < (drop_nulls_q series).length),
      if_pos ⟨ne_of_gt hspos, hene, hspos⟩,
      if_pos (by omega : 0 < (drop_nulls_q series).length - 1)]
  · intro series s hs hsle
    by_cases hlen : 1 < (drop_nulls_q series).length
    · have hne : drop_nulls_q series ≠ [] := by
        intro hnil; rw [hnil] at hlen; simp at hlen
      obtain ⟨e, he⟩ : ∃ e, (drop_nulls_q series).head? = some e := by
        cases hh : (drop_nulls_q series).head? with
        | none => exact absurd (List.head?_eq_none_iff.1 hh) hne
        | some e => exact ⟨e, rfl⟩
      simp only [cagr_select, hs, he]
      rw [if_pos hlen, if_neg]
      intro hcond
      exact absurd hcond.2.2 (not_lt.2 hsle)
    · simp only [cagr_select]
      rw [if_neg hlen]
  · intro series hlen
    simp only [cagr_select]
    rw [if_neg (by omega : ¬ 1 < (drop_nulls_q series).length)]
  · intro c h0 h2
    have h3 : (1 + c) ^ (2 : ℕ) = 3 := by rw [h2]; norm_num
    constructor
    · nlinarith [sq_nonneg (1 + c - 173 / 100), sq_nonneg (1 + c)]
    · nlinarith [sq_nonneg (1 + c - 174 / 100), sq_nonneg (1 + c)]

/-- C7 (witness): the selection rule applied to the concrete most-recent-
first series [150, 140, 50]. -/
theorem cagr_selection_spec_witness :
    cagr_select [some 150, some 140, some 50] = some (50, 150, 2) :=
  cagr_selection_spec.1 [some 150, some 140, some 50] 50 150 rfl rfl
    (by decide) (by norm_num) (by norm_num)

/-- C7 (counterexample): the series [0, 50] (most-recent-first) has two
non-missing values and a positive start value, so the claim requires the
entry CAGR = (0/50)^(1/1) − 1 = −100%; the code's truthiness guard
`if start_val and end_val and start_val > 0` rejects the zero end value and
omits the entry instead. -/
theorem cagr_zero_end_value_omitted :
    cagr_select [some 0, some 50] = none ∧
      (drop_nulls_q [some 0, some 50]).length = 2 ∧
      (drop_nulls_q [some 0, some 50]).getLast? = some 50 ∧ (0 : ℚ) < 50 := by
  exact ⟨by decide, rfl, rfl, by norm_num⟩

/-! ### C1 — watchlist write concurrency -/

theorem write_favorites_doc_some (s : RepoState) (c : List String) (sha : ℕ)
    (favs : List String) (h : s.doc = some (c, sha)) :
    write_favorites_to_github s favs
      = (true, { doc := some (normalize_favorites favs, s.nextSha),
                 nextSha := s.nextSha + 1 }) := by
  simp [write_favorites_to_github, get_contents, update_file, h]

theorem write_favorites_doc_none (s : RepoState) (favs : List String)
    (h : s.doc = none) :
    write_favorites_to_github s favs
      = (true, { doc := some (normalize_favorites favs, s.nextSha),
                 nextSha := s.nextSha + 1 }) := by
  simp [write_favorites_to_github, get_contents, create_file, h]

/-- C1 (amended): `write` fetches the CURRENT revision token inside the call
— immediately before the conditional update — instead of using a token
obtained at read time, so whenever the document exists the write succeeds
(returns `True`, never a Conflict) and replaces the content outright:
last-write-wins over any change made since the caller's read. -/
theorem write_favorites_last_write_wins (s : RepoState) (c : List String)
    (sha : ℕ) (favs : List String) (h : s.doc = some (c, sha)) :
    write_favorites_to_github s favs
      = (true, { doc := some (normalize_favorites favs, s.nextSha),
                 nextSha := s.nextSha + 1 }) :=
  write_favorites_doc_some s c sha favs h

/-- C1 (witness): a concrete overwrite of an existing document. -/
theorem write_favorites_last_write_wins_witness :
    write_favorites_to_github { doc := some (["AAPL"], 5), nextSha := 9 } ["MSFT"]
      = (true, { doc := some (normalize_favorites ["MSFT"], 9), nextSha := 10 }) :=
  write_favorites_last_write_wins { doc := some (["AAPL"], 5), nextSha := 9 }
    ["AAPL"] 5 ["MSFT"] rfl

/-- C1 (counterexample): a concurrent writer moves the document from
revision 0 to revision 1 (adding "TSLA") after our session read revision 0;
the session's subsequent write still returns `True` — not a Conflict — and
replaces the document, silently discarding the concurrent "TSLA" entry. -/
theorem stale_write_not_rejected :
    update_file { doc := some (["AAPL"], 0), nextSha := 1 } ["AAPL", "TSLA"] 0
        = Except.ok { doc := some (["AAPL", "TSLA"], 1), nextSha := 2 } ∧
      write_favorites_to_github { doc := some (["AAPL", "TSLA"], 1), nextSha := 2 }
          ["AAPL", "MSFT"]
        = (true, { doc := some (["AAPL", "MSFT"], 2), nextSha := 3 }) ∧
      "TSLA" ∉ ["AAPL", "MSFT"] :=
  ⟨rfl, by decide, by decide⟩

/-! ### C5 — normalization before write -/

/-- C5 (amended): every write persists `sorted(list(set(favorites)))` — the
exact-equality deduplicated, sorted list, which contains no two EQUAL
symbols; no case normalization is applied, so symbols differing only in
letter case all survive (see the counterexample). -/
theorem write_persists_dedup_sorted (s : RepoState) (favs : List String) :
    (write_favorites_to_github s favs).2.doc
        = some (normalize_favorites favs,
            (write_favorites_to_github s favs).2.nextSha - 1) ∧
      (normalize_favorites favs).Nodup := by
  constructor
  · cases hdoc : s.doc with
    | some p =>
        rw [write_favorites_doc_some s p.1 p.2 favs (by rw [hdoc])]
        simp
    | none =>
        rw [write_favorites_doc_none s favs hdoc]
        simp
  · exact (List.perm_insertionSort strLeP favs.dedup).symm.nodup
      (List.nodup_dedup favs)

/-- C5 (witness): the write theorem at a concrete repository state. -/
theorem write_persists_dedup_sorted_witness :
    (write_favorites_to_github { doc := none, nextSha := 0 } ["msft", "AAPL", "msft"]).2.doc
        = some (normalize_favorites ["msft", "AAPL", "msft"],
            (write_favorites_to_github { doc := none, nextSha := 0 }
                ["msft", "AAPL", "msft"]).2.nextSha - 1) ∧
      (normalize_favorites ["msft", "AAPL", "msft"]).Nodup :=
  write_persists_dedup_sorted { doc := none, nextSha := 0 } ["msft", "AAPL", "msft"]

/-- C5 (counterexample): writing ["msft", "MSFT"] — two symbols differing
only in letter case — persists BOTH: deduplication uses exact string
equality and no case normalization happens on the write path. -/
theorem case_variants_both_persisted :
    (write_favorites_to_github { doc := none, nextSha := 0 } ["msft", "MSFT"]).2.doc
        = some (["MSFT", "msft"], 0) ∧
      "MSFT" ≠ "msft" ∧
      "MSFT".data.map Char.toLower = "msft".data.map Char.toLower :=
  ⟨by decide, by decide, by decide⟩

/-! ### C2 — cache behaviour on failed fetches -/

/-- C2 (amended): an exception raised by the wrapped function does propagate
and is not cached; but `fetch_full_data` catches every fetch failure and
returns `None`, a regular value the cache stores like any other, so within
the TTL the failure sentinel is served WITHOUT re-invoking the fetch.
(`scrape_finviz_data`'s failure path raises `NameError`, which accordingly
is not cached.) -/
theorem cache_failure_behaviour :
    (∀ (V E : Type) (ttl now : ℕ) (entry : Option (CacheEntry V))
        (fn : Unit → Except E V) (err : E),
        cacheFresh ttl now entry = false → fn () = Except.error err →
        cachedCall ttl now entry fn = (Except.error err, entry, true)) ∧
    (∀ (msg : String) (now : ℕ),
        cachedCall 600 now none
            (fun _ => (Except.ok (fetch_full_data (Except.error msg)) :
              Except String (Option FullData)))
          = (Except.ok none, some ⟨none, now⟩, true)) ∧
    (∀ (msg : String) (t now : ℕ), now < t + 600 →
        cachedCall 600 now (some ⟨(none : Option FullData), t⟩)
            (fun _ => (Except.ok (fetch_full_data (Except.error msg)) :
              Except String (Option FullData)))
          = (Except.ok none, some ⟨none, t⟩, false)) ∧
    (∀ (msg : String) (now : ℕ),
        cachedCall 600 now none (fun _ => scrape_finviz_data (Except.error msg))
          = (Except.error PyError.nameError, none, true)) := by
  refine ⟨?_, ?_, ?_, ?_⟩
  · intro V E ttl now entry fn err hstale hfn
    cases entry with
    | none => simp [cachedCall, hfn]
    | some entry =>
        have hnot : ¬ now < entry.computed_at + ttl := by
          simpa [cacheFresh] using hstale
        simp [cachedCall, hnot, hfn]
  · intro msg now; rfl
  · intro msg t now hfresh
    simp [cachedCall, hfresh]
  · intro msg now; rfl

/-- C2 (witness): the cache theorem at concrete times and a concrete failing
oracle. -/
theorem cache_failure_behaviour_witness :
    cachedCall 600 1 (some ⟨(none : Option FullData), 0⟩)
        (fun _ => (Except.ok (fetch_full_data (Except.error "boom")) :
          Except String (Option FullData)))
      = (Except.ok none, some ⟨none, 0⟩, false) :=
  cache_failure_behaviour.2.2.1 "boom" 0 1 (by norm_num)

/-- C2 (counterexample): with the network oracle failing, the first cached
call stores the `None` sentinel — the failure did NOT propagate and an entry
WAS stored — and a second call within the TTL serves the cached `None`
without re-invoking the compute function, contradicting the claim that a
failed fetch is retried on the next access. -/
theorem failed_fetch_cached_not_retried :
    cachedCall 600 0 none
        (fun _ => (Except.ok (fetch_full_data (Except.error "network down")) :
          Except String (Option FullData)))
      = (Except.ok none, some ⟨none, 0⟩, true) ∧
    cachedCall 600 1 (some ⟨(none : Option FullData), 0⟩)
        (fun _ => (Except.ok (fetch_full_data (Except.error "network down")) :
          Except String (Option FullData)))
      = (Except.ok none, some ⟨none, 0⟩, false) :=
  ⟨rfl, rfl⟩

/-! ### C10 — scraper failure mode -/

/-- C10: when the HTTP request or the HTML query raises — or when the cell
list has odd length and the pairing step raises IndexError — the `except`
handler references `metrics_to_get`, bound only after the failing statement,
and itself raises NameError: the whole call fails instead of returning the
per-metric "Error" map.  On the success path the five requested metrics are
returned with "N/A" for missing fields. -/
theorem scrape_failure_raises_name_error :
    (∀ msg : String,
        scrape_finviz_data (Except.error msg) = Except.error PyError.nameError) ∧
      scrape_finviz_data (Except.ok ["P/E", "30.5", "odd"])
        = Except.error PyError.nameError ∧
      scrape_finviz_data (Except.ok ["P/E", "30.5", "ROE", "12%"])
        = Except.ok [("P/E", "30.5"), ("ROE", "12%"), ("PEG", "N/A"),
            ("EV/EBITDA", "N/A"), ("Target Price", "N/A")] :=
  ⟨fun _ => rfl, rfl, rfl⟩

/-- C10 (witness): the failure rule at a concrete network error. -/
theorem scrape_failure_raises_name_error_witness :
    scrape_finviz_data (Except.error "network down") = Except.error PyError.nameError :=
  scrape_failure_raises_name_error.1 "network down"

/-! ### C8 — flat 300-bar end-to-end scenario -/

theorem cross_events_replicate (m : ℕ) (r : Row) :
    cross_events (List.replicate m r) = [] := by
  cases m with
  | zero => rfl
  | succ k =>
      apply List.filter_eq_nil_iff.2
      intro x hx
      obtain ⟨xr, xd⟩ := x
      have hdiff : xd ∈ seriesDiff ((List.replicate (k + 1) r).map crossSignal) :=
        (List.of_mem_zip hx).2
      rw [List.map_replicate, seriesDiff_replicate] at hdiff
      rcases List.mem_cons.1 hdiff with h | h
      · subst h; simp
      · have := List.eq_of_mem_replicate h
        subst this
        simp [sub_self]

/-- C8 (amended): on 300 flat daily bars at price 100 the display window is
exactly 101 copies of the fully-derived flat row — both moving averages
equal to 100 once their windows fill — the RSI field is NaN (not the claimed
50), no CrossEvents are produced, and on the flat two-period revenue series
[100, 100] the growth-rate selection is (start 100, end 100, 1 period),
whose CAGR (100/100)^(1/1) − 1 is 0%. -/
theorem flat_history_end_to_end :
    process_history (List.replicate 300 (constBar 100 0))
        = List.replicate 101 (fullFlatRow 100 0) ∧
      (fullFlatRow 100 0).ma50 = some 100 ∧
      (fullFlatRow 100 0).ma200 = some 100 ∧
      (fullFlatRow 100 0).rsi = FV.nan ∧
      cross_events (process_history (List.replicate 300 (constBar 100 0))) = [] ∧
      cagr_map [("Total Revenue", [some 100, some 100])]
        = [("Total Revenue", (100, 100, 1))] ∧
      (∀ cagr_val : ℚ, (1 + cagr_val) ^ (1 : ℕ) = 100 / 100 → cagr_val = 0) := by
  refine ⟨process_history_flat300 100 0, rfl, rfl, rfl, ?_, by decide, ?_⟩
  · rw [process_history_flat300 100 0]
    exact cross_events_replicate 101 (fullFlatRow 100 0)
  · intro c h
    rw [pow_one] at h
    norm_num at h
    exact h

/-- C8 (witness): the zero-growth rule of the flat scenario applied at the
concrete growth value 0. -/
theorem flat_history_end_to_end_witness : (0 : ℚ) = 0 :=
  flat_history_end_to_end.2.2.2.2.2.2 0 (by norm_num)

/-- C8 (counterexample): the claim expects the RSI to converge to the
flat-price limiting value 50; the pipeline instead leaves NaN (the float
`0/0`) in the RSI field of every display-window row, including the last. -/
theorem flat_history_rsi_not_fifty :
    (process_history (List.replicate 300 (constBar 100 0))).getLast?.map (fun r => r.rsi)
        = some FV.nan ∧
      FV.nan ≠ FV.fin 50 := by
  constructor
  · rw [process_history_flat300 100 0]; rfl
  · intro h; cases h

end FinanceDashboard
